import Mathlib

set_option autoImplicit false

/-! Formal model of the fixed-window rate limiter implemented in
`src/middleware/rateLimiter.ts`.  Timestamps are integer epoch milliseconds
(`Date.now()`); every JS number that occurs is an exact small integer, so all
numeric fields are modelled by `Int`.  The module-level `Map` is rendered as an
association list threaded explicitly through the operations; line numbers in
doc comments refer to `rateLimiter.ts`. -/

/-- `RateLimitConfig` (lines 7-10). -/
structure RateLimitConfig where
  limit : Int
  windowSec : Int
  deriving DecidableEq

/-- `UserRateLimit` (lines 15-18). -/
structure UserRateLimit where
  count : Int
  resetTime : Int
  deriving DecidableEq

/-- `RateLimitStore` (line 23): the JS `Map` as an association list. -/
abbrev RateLimitStore := List (String × UserRateLimit)

/-- `Map.get`: the value stored at key `k`, if any. -/
def lookupKey : RateLimitStore → String → Option UserRateLimit
  | [], _ => none
  | e :: rest, k => if e.1 = k then some e.2 else lookupKey rest k

/-- `Map.set`: replace the entry for `k` in place, or append a new one. -/
def setKey : RateLimitStore → String → UserRateLimit → RateLimitStore
  | [], k, v => [(k, v)]
  | e :: rest, k, v => if e.1 = k then (k, v) :: rest else e :: setKey rest k v

/-- `Map.delete`: remove the entry for `k` (a `Map` holds each key at most once). -/
def eraseKey (s : RateLimitStore) (k : String) : RateLimitStore :=
  s.filter (fun e => !(decide (e.1 = k)))

/-- `cleanupExpiredEntries` (lines 51-58): drop every entry with
`now > data.resetTime`. -/
def cleanupExpiredEntries (now : Int) (s : RateLimitStore) : RateLimitStore :=
  s.filter (fun e => !(decide (e.2.resetTime < now)))

/-- The verdict and quota state one middleware invocation reports: `admitted`
is whether `next()` is reached (line 150 check), the other fields are the
`X-RateLimit-*` header values (lines 145-147). -/
structure Decision where
  admitted : Bool
  limit : Int
  remaining : Int
  resetIn : Int
  deriving DecidableEq

/-- `Math.ceil(d / 1000)` on an exact integer `d`: ceiling division, written
as the floor division (`Int.ediv`, the `/` of `Int`, which rounds toward
negative infinity for the positive divisor `1000`) of the shifted numerator. -/
def ceilDiv1000 (d : Int) : Int := (d + 999) / 1000

/-- `getUserRateLimitData` (lines 94-109), with the ambient `Date.now()`
injected as `now`: reports `(remaining, resetIn)` for `userId`. -/
def getUserRateLimitData (userId : String) (config : RateLimitConfig)
    (s : RateLimitStore) (now : Int) : Int × Int :=
  match lookupKey s userId with
  | none => (config.limit, config.windowSec)
  | some userData =>
    if userData.resetTime < now then
      (config.limit, config.windowSec)
    else
      (max 0 (config.limit - userData.count),
       ceilDiv1000 (userData.resetTime - now))

/-- One invocation of the middleware returned by `createRateLimiterMiddleware`
(lines 121-159), with the client key already resolved and `now = Date.now()`
injected.  The in-place `userData.count++` on the object held by the `Map`
(line 139) is rendered as storing the incremented record. -/
def check (config : RateLimitConfig) (s : RateLimitStore) (userId : String)
    (now : Int) : Decision × RateLimitStore :=
  let s1 := cleanupExpiredEntries now s
  let resetTime := now + config.windowSec * 1000
  let userData : UserRateLimit :=
    match lookupKey s1 userId with
    | some d => if d.resetTime < now then ⟨0, resetTime⟩ else d
    | none => ⟨0, resetTime⟩
  let userData1 : UserRateLimit := ⟨userData.count + 1, userData.resetTime⟩
  let s2 := setKey s1 userId userData1
  let info := getUserRateLimitData userId config s2 now
  ({ admitted := !(decide (config.limit < userData1.count)),
     limit := config.limit, remaining := info.1, resetIn := info.2 }, s2)

/-- Sequential middleware invocations for a single key at the given
timestamps, threading the store. -/
def checkSeq (config : RateLimitConfig) (userId : String) :
    RateLimitStore → List Int → List Decision × RateLimitStore
  | s, [] => ([], s)
  | s, t :: ts =>
    let r := check config s userId t
    let rest := checkSeq config userId r.2 ts
    (r.1 :: rest.1, rest.2)

/-- `getRateLimitStats` (lines 171-180): cleanup, then report
`(activeUsers, totalEntries)` — both the store size — next to the store the
call leaves behind. -/
def getRateLimitStats (s : RateLimitStore) (now : Int) :
    (Nat × Nat) × RateLimitStore :=
  let s1 := cleanupExpiredEntries now s
  ((s1.length, s1.length), s1)

/-- `resetUserRateLimit` (lines 185-187). -/
def resetUserRateLimit (s : RateLimitStore) (userId : String) : RateLimitStore :=
  eraseKey s userId

/-- `resetAllRateLimits` (lines 192-194). -/
def resetAllRateLimits (_s : RateLimitStore) : RateLimitStore := []

/-- The outcome of `parseInt(v, 10)` on a JS string: `none` is `NaN`. -/
abbrev ParseIntResult := Option Int

/-- An environment variable: `none` when the variable is unset. -/
abbrev EnvVar := Option ParseIntResult

/-- `parseInt(env ?? dflt, 10)`: an unset variable parses the default literal. -/
def envParse (v : EnvVar) (dflt : Int) : ParseIntResult := v.getD (some dflt)

/-- `getConfig` (lines 28-41): a thrown `Error` is rendered as `Except.error`
with the thrown message; `limit <= 0 || isNaN(limit)` is the nonpositive /
`none` split on the parse result. -/
def getConfig (envLimit envWindow : EnvVar) : Except String RateLimitConfig :=
  match envParse envLimit 5 with
  | none => .error "RATE_LIMIT must be a positive number"
  | some limit =>
    if limit ≤ 0 then .error "RATE_LIMIT must be a positive number"
    else
      match envParse envWindow 60 with
      | none => .error "RATE_WINDOW_SEC must be a positive number"
      | some windowSec =>
        if windowSec ≤ 0 then .error "RATE_WINDOW_SEC must be a positive number"
        else .ok ⟨limit, windowSec⟩

/-- `Partial<RateLimitConfig>`: each field may be absent. -/
structure CustomConfig where
  limit : Option Int := none
  windowSec : Option Int := none
  deriving DecidableEq

/-- `createRateLimiterMiddleware` (lines 115-119): validate the
environment-derived config, then merge the optional custom config over it
(`{ ...baseConfig, ...customConfig }`).  The result is the effective config
captured by the returned middleware closure. -/
def createRateLimiterMiddleware (envLimit envWindow : EnvVar)
    (customConfig : CustomConfig) : Except String RateLimitConfig :=
  (getConfig envLimit envWindow).map fun base =>
    ⟨customConfig.limit.getD base.limit, customConfig.windowSec.getD base.windowSec⟩

/-- A JS `Map` holds each key at most once; every store reachable through the
module's operations satisfies this. -/
abbrev keysNodup (s : RateLimitStore) : Prop := (s.map Prod.fst).Nodup

/-- The decision `check` produces, as a function of the entry the cleaned
store holds for the checked key. -/
def decisionFrom (config : RateLimitConfig) (now : Int)
    (o : Option UserRateLimit) : Decision :=
  let resetTime := now + config.windowSec * 1000
  let userData : UserRateLimit :=
    match o with
    | some d => if d.resetTime < now then ⟨0, resetTime⟩ else d
    | none => ⟨0, resetTime⟩
  let userData1 : UserRateLimit := ⟨userData.count + 1, userData.resetTime⟩
  { admitted := !(decide (config.limit < userData1.count)),
    limit := config.limit,
    remaining := if userData1.resetTime < now then config.limit
                 else max 0 (config.limit - userData1.count),
    resetIn := if userData1.resetTime < now then config.windowSec
               else ceilDiv1000 (userData1.resetTime - now) }

/-! ### Association-list lemmas -/

theorem lookupKey_setKey_self (s : RateLimitStore) (k : String)
    (v : UserRateLimit) : lookupKey (setKey s k v) k = some v := by
  induction s with
  | nil => simp [setKey, lookupKey]
  | cons e rest ih =>
    by_cases h : e.1 = k
    · simp [setKey, h, lookupKey]
    · simp [setKey, h, lookupKey, ih]

theorem lookupKey_setKey_ne (s : RateLimitStore) (k k' : String)
    (v : UserRateLimit) (h : k' ≠ k) :
    lookupKey (setKey s k v) k' = lookupKey s k' := by
  induction s with
  | nil => simp [setKey, lookupKey, Ne.symm h]
  | cons e rest ih =>
    obtain ⟨a, b⟩ := e
    by_cases ha : a = k
    · subst ha
      simp [setKey, lookupKey, Ne.symm h]
    · simp [setKey, lookupKey, ha, ih]

theorem lookupKey_filter_pass (s : RateLimitStore)
    (p : String × UserRateLimit → Bool) (k : String) (r : UserRateLimit)
    (h : lookupKey s k = some r) (hp : p (k, r) = true) :
    lookupKey (s.filter p) k = some r := by
  induction s with
  | nil => simp [lookupKey] at h
  | cons e rest ih =>
    obtain ⟨a, b⟩ := e
    by_cases ha : a = k
    · subst ha
      simp only [lookupKey, if_pos, Option.some.injEq] at h
      subst h
      simp [List.filter_cons_of_pos hp, lookupKey]
    · simp only [lookupKey, if_neg ha] at h
      by_cases hpe : p (a, b) = true
      · rw [List.filter_cons_of_pos hpe]
        simp [lookupKey, ha, ih h]
      · rw [List.filter_cons_of_neg (by simpa using hpe)]
        exact ih h

theorem lookupKey_filter_some (s : RateLimitStore)
    (p : String × UserRateLimit → Bool) (k : String) (r : UserRateLimit)
    (h : lookupKey (s.filter p) k = some r) : p (k, r) = true := by
  induction s with
  | nil => simp [lookupKey] at h
  | cons e rest ih =>
    obtain ⟨a, b⟩ := e
    by_cases hpe : p (a, b) = true
    · rw [List.filter_cons_of_pos hpe] at h
      by_cases ha : a = k
      · subst ha
        simp only [lookupKey, if_pos, Option.some.injEq] at h
        exact h ▸ hpe
      · simp only [lookupKey, if_neg ha] at h
        exact ih h
    · rw [List.filter_cons_of_neg (by simpa using hpe)] at h
      exact ih h

theorem lookupKey_filter_none (s : RateLimitStore)
    (p : String × UserRateLimit → Bool) (k : String)
    (h : lookupKey s k = none) : lookupKey (s.filter p) k = none := by
  induction s with
  | nil => simp [lookupKey]
  | cons e rest ih =>
    obtain ⟨a, b⟩ := e
    by_cases ha : a = k
    · simp [lookupKey, ha] at h
    · simp only [lookupKey, if_neg ha] at h
      by_cases hpe : p (a, b) = true
      · rw [List.filter_cons_of_pos hpe]
        simp [lookupKey, ha, ih h]
      · rw [List.filter_cons_of_neg (by simpa using hpe)]
        exact ih h

theorem lookupKey_eq_none_of_not_mem_keys (s : RateLimitStore) (k : String)
    (h : k ∉ s.map Prod.fst) : lookupKey s k = none := by
  induction s with
  | nil => simp [lookupKey]
  | cons e rest ih =>
    simp only [List.map_cons, List.mem_cons, not_or] at h
    have h1 : ¬ e.1 = k := fun he => h.1 he.symm
    simp [lookupKey, h1, ih h.2]

theorem keysNodup_filter (s : RateLimitStore)
    (p : String × UserRateLimit → Bool) (h : keysNodup s) :
    keysNodup (s.filter p) :=
  List.Nodup.sublist (List.Sublist.map Prod.fst (List.filter_sublist s)) h

theorem keysNodup_cleanup (s : RateLimitStore) (now : Int) (h : keysNodup s) :
    keysNodup (cleanupExpiredEntries now s) :=
  keysNodup_filter s _ h

theorem mem_keys_setKey (s : RateLimitStore) (k : String) (v : UserRateLimit)
    (a : String) (h : a ∈ (setKey s k v).map Prod.fst) :
    a = k ∨ a ∈ s.map Prod.fst := by
  induction s with
  | nil => simpa [setKey] using h
  | cons e rest ih =>
    obtain ⟨b, w⟩ := e
    by_cases hb : b = k
    · subst hb
      simp only [setKey, if_pos rfl] at h
      simpa using h
    · simp only [setKey, if_neg hb, List.map_cons, List.mem_cons] at h
      rcases h with h | h
      · exact Or.inr (by simp [h])
      · rcases ih h with h' | h'
        · exact Or.inl h'
        · exact Or.inr (by simp [h'])

theorem keysNodup_setKey (s : RateLimitStore) (k : String) (v : UserRateLimit)
    (h : keysNodup s) : keysNodup (setKey s k v) := by
  induction s with
  | nil => simp [setKey, keysNodup]
  | cons e rest ih =>
    obtain ⟨b, w⟩ := e
    simp only [keysNodup, List.map_cons, List.nodup_cons] at h
    obtain ⟨hb, hrest⟩ := h
    by_cases hbk : b = k
    · subst hbk
      have hset : setKey ((b, w) :: rest) b v = (b, v) :: rest := by
        simp [setKey]
      rw [hset]
      simp only [keysNodup, List.map_cons, List.nodup_cons]
      exact ⟨hb, hrest⟩
    · simp only [setKey, if_neg hbk, keysNodup, List.map_cons, List.nodup_cons]
      refine ⟨?_, ih hrest⟩
      intro hmem
      rcases mem_keys_setKey rest k v b hmem with rfl | hm
      · exact hbk rfl
      · exact hb hm

theorem lookupKey_filter_eq (s : RateLimitStore)
    (p : String × UserRateLimit → Bool) (k : String) (hn : keysNodup s) :
    lookupKey (s.filter p) k =
      match lookupKey s k with
      | none => none
      | some r => if p (k, r) = true then some r else none := by
  induction s with
  | nil => simp [lookupKey]
  | cons e rest ih =>
    obtain ⟨a, b⟩ := e
    simp only [keysNodup, List.map_cons, List.nodup_cons] at hn
    obtain ⟨ha, hrest⟩ := hn
    by_cases hak : a = k
    · subst hak
      by_cases hp : p (a, b) = true
      · rw [List.filter_cons_of_pos hp]
        simp [lookupKey, hp]
      · rw [List.filter_cons_of_neg (by simpa using hp)]
        have hnone : lookupKey rest a = none :=
          lookupKey_eq_none_of_not_mem_keys rest a ha
        simp [lookupKey, hp, lookupKey_filter_none rest p a hnone]
    · by_cases hp : p (a, b) = true
      · rw [List.filter_cons_of_pos hp]
        simp [lookupKey, hak, ih hrest]
      · rw [List.filter_cons_of_neg (by simpa using hp)]
        simp [lookupKey, hak, ih hrest]

/-! ### Branch characterizations of `check` -/

theorem check_fresh (config : RateLimitConfig) (s : RateLimitStore)
    (k : String) (now : Int) (hW : 0 ≤ config.windowSec)
    (h : lookupKey (cleanupExpiredEntries now s) k = none ∨
      ∃ d, lookupKey (cleanupExpiredEntries now s) k = some d ∧ d.resetTime < now) :
    check config s k now =
      ({ admitted := !(decide (config.limit < 1)), limit := config.limit,
         remaining := max 0 (config.limit - 1),
         resetIn := ceilDiv1000 (config.windowSec * 1000) },
       setKey (cleanupExpiredEntries now s) k
         ⟨1, now + config.windowSec * 1000⟩) := by
  have hnotlt : ¬ (now + config.windowSec * 1000 < now) := by omega
  rcases h with h | ⟨d, hd, hlt⟩
  · simp [check, h, getUserRateLimitData, lookupKey_setKey_self, hnotlt,
      add_sub_cancel_left]
  · simp [check, hd, hlt, getUserRateLimitData, lookupKey_setKey_self, hnotlt,
      add_sub_cancel_left]

theorem check_cont (config : RateLimitConfig) (s : RateLimitStore)
    (k : String) (now : Int) (d : UserRateLimit)
    (h : lookupKey (cleanupExpiredEntries now s) k = some d)
    (hd : ¬ d.resetTime < now) :
    check config s k now =
      ({ admitted := !(decide (config.limit < d.count + 1)),
         limit := config.limit,
         remaining := max 0 (config.limit - (d.count + 1)),
         resetIn := ceilDiv1000 (d.resetTime - now) },
       setKey (cleanupExpiredEntries now s) k ⟨d.count + 1, d.resetTime⟩) := by
  simp [check, h, hd, getUserRateLimitData, lookupKey_setKey_self]

theorem check_store (config : RateLimitConfig) (s : RateLimitStore)
    (k : String) (now : Int) :
    ∃ c R, (check config s k now).2 =
        setKey (cleanupExpiredEntries now s) k ⟨c, R⟩ ∧
      (R = now + config.windowSec * 1000 ∨ now ≤ R) := by
  cases hl : lookupKey (cleanupExpiredEntries now s) k with
  | none => exact ⟨1, _, by simp [check, hl], Or.inl rfl⟩
  | some d =>
    by_cases hd : d.resetTime < now
    · exact ⟨1, _, by simp [check, hl, hd], Or.inl rfl⟩
    · exact ⟨d.count + 1, d.resetTime, by simp [check, hl, hd], Or.inr (by omega)⟩

theorem check_decision_eq (config : RateLimitConfig) (s : RateLimitStore)
    (k : String) (now : Int) :
    (check config s k now).1 =
      decisionFrom config now (lookupKey (cleanupExpiredEntries now s) k) := by
  cases hl : lookupKey (cleanupExpiredEntries now s) k with
  | none =>
    by_cases hW : now + config.windowSec * 1000 < now
    · simp [check, hl, decisionFrom, getUserRateLimitData, lookupKey_setKey_self, hW]
    · simp [check, hl, decisionFrom, getUserRateLimitData, lookupKey_setKey_self, hW]
  | some d =>
    by_cases hd : d.resetTime < now
    · by_cases hW : now + config.windowSec * 1000 < now
      · simp [check, hl, hd, decisionFrom, getUserRateLimitData,
          lookupKey_setKey_self, hW]
      · simp [check, hl, hd, decisionFrom, getUserRateLimitData,
          lookupKey_setKey_self, hW]
    · simp [check, hl, hd, decisionFrom, getUserRateLimitData, lookupKey_setKey_self]

theorem check_keysNodup (config : RateLimitConfig) (s : RateLimitStore)
    (k : String) (now : Int) (hn : keysNodup s) :
    keysNodup (check config s k now).2 := by
  obtain ⟨c, R, h2, _⟩ := check_store config s k now
  rw [h2]
  exact keysNodup_setKey _ _ _ (keysNodup_cleanup s now hn)

/-! ### Further helper lemmas -/

theorem ceilDiv1000_eq (d : Int) : ceilDiv1000 d = ⌈((d : ℚ)) / 1000⌉ := by
  rw [ceilDiv1000]
  have hb1 : 1000 * ((d + 999) / 1000) - 1000 < d := by omega
  have hb2 : d ≤ 1000 * ((d + 999) / 1000) := by omega
  symm
  rw [Int.ceil_eq_iff]
  constructor
  · rw [lt_div_iff₀ (by norm_num : (0 : ℚ) < 1000)]
    have hc : ((1000 * ((d + 999) / 1000) - 1000 : Int) : ℚ) < (d : ℚ) := by
      exact_mod_cast hb1
    push_cast at hc ⊢
    linarith
  · rw [div_le_iff₀ (by norm_num : (0 : ℚ) < 1000)]
    have hc : ((d : Int) : ℚ) ≤ ((1000 * ((d + 999) / 1000) : Int) : ℚ) := by
      exact_mod_cast hb2
    push_cast at hc ⊢
    linarith

theorem keys_ne_of_lookupKey_none (s : RateLimitStore) (k : String)
    (h : lookupKey s k = none) : ∀ e ∈ s, e.1 ≠ k := by
  induction s with
  | nil => simp
  | cons e rest ih =>
    by_cases he : e.1 = k
    · simp [lookupKey, he] at h
    · simp only [lookupKey, if_neg he] at h
      intro f hf
      rcases List.mem_cons.mp hf with rfl | hf
      · exact he
      · exact ih h f hf

theorem lookupKey_eraseKey_self (s : RateLimitStore) (k : String) :
    lookupKey (eraseKey s k) k = none := by
  cases hl : lookupKey (eraseKey s k) k with
  | none => rfl
  | some r =>
    have := lookupKey_filter_some s _ k r hl
    simp at this

theorem eraseKey_idem (s : RateLimitStore) (k : String) :
    eraseKey (eraseKey s k) k = eraseKey s k := by
  simp [eraseKey, List.filter_filter]

theorem eraseKey_of_lookupKey_none (s : RateLimitStore) (k : String)
    (h : lookupKey s k = none) : eraseKey s k = s := by
  rw [eraseKey, List.filter_eq_self]
  intro e he
  simpa using keys_ne_of_lookupKey_none s k h e he

/-! ### Claims -/

/-- C10: with both environment variables unset and no custom config supplied,
construction succeeds and the effective config is limit 5, windowSeconds 60. -/
theorem C10_default_config :
    createRateLimiterMiddleware none none {} =
      .ok ⟨5, 60⟩ := rfl

/-- C4 counterexample: with the environment unset (the defaults `5`/`60`
parse and validate) and a custom config `{ limit: 0 }`, construction
succeeds — returning effective config `⟨0, 60⟩` with limit `0 ≤ 0` — although
the claim requires it to fail whenever the effective limit is nonpositive. -/
theorem C4_cex :
    createRateLimiterMiddleware none none ⟨some 0, none⟩ =
      .ok ⟨0, 60⟩ ∧ (0 : Int) ≤ 0 :=
  ⟨rfl, le_refl 0⟩

/-- C4 (amended): construction fails exactly when the environment-derived
base config is invalid — `RATE_LIMIT` parses to `NaN` or a nonpositive value,
or `RATE_WINDOW_SEC` does.  The custom config is merged over the base after
validation and is itself never validated, so it has no effect on whether
construction fails. -/
theorem C4_construction_validates_env_only (envLimit envWindow : EnvVar)
    (customConfig : CustomConfig) :
    (∃ cfg, createRateLimiterMiddleware envLimit envWindow customConfig =
        .ok cfg) ↔
      ((∃ l, envParse envLimit 5 = some l ∧ 0 < l) ∧
       (∃ w, envParse envWindow 60 = some w ∧ 0 < w)) := by
  unfold createRateLimiterMiddleware getConfig
  cases hl : envParse envLimit 5 with
  | none =>
    apply iff_of_false
    · rintro ⟨cfg, hcfg⟩
      simp [Except.map] at hcfg
    · rintro ⟨⟨l, hl', -⟩, -⟩
      cases hl'
  | some l =>
    dsimp only
    by_cases h0 : l ≤ 0
    · rw [if_pos h0]
      apply iff_of_false
      · rintro ⟨cfg, hcfg⟩
        simp [Except.map] at hcfg
      · rintro ⟨⟨l', hl', hpos⟩, -⟩
        rw [Option.some.injEq] at hl'
        omega
    · rw [if_neg h0]
      cases hw : envParse envWindow 60 with
      | none =>
        apply iff_of_false
        · rintro ⟨cfg, hcfg⟩
          simp [Except.map] at hcfg
        · rintro ⟨-, ⟨w, hw', -⟩⟩
          cases hw'
      | some w =>
        dsimp only
        by_cases hw0 : w ≤ 0
        · rw [if_pos hw0]
          apply iff_of_false
          · rintro ⟨cfg, hcfg⟩
            simp [Except.map] at hcfg
          · rintro ⟨-, ⟨w', hw', hpos⟩⟩
            rw [Option.some.injEq] at hw'
            omega
        · rw [if_neg hw0]
          apply iff_of_true
          · exact ⟨_, rfl⟩
          · exact ⟨⟨l, rfl, by omega⟩, ⟨w, rfl, by omega⟩⟩

/-- C2 counterexample: at `now` exactly equal to the record's `windowEnd`
(`1000`), the claim demands the record be replaced with count `0` and
`windowEnd = now + windowSeconds` and then incremented — i.e. `⟨1, 61000⟩` —
but the code's expiry test is strict (`now > resetTime`), so the call keeps
the old window and leaves the record `⟨4, 1000⟩`. -/
theorem C2_cex :
    lookupKey (check ⟨5, 60⟩ [("k", ⟨3, 1000⟩)] "k" 1000).2 "k" =
      some ⟨4, 1000⟩ ∧
    some (⟨4, 1000⟩ : UserRateLimit) ≠ some (⟨1, 61000⟩ : UserRateLimit) :=
  ⟨rfl, by decide⟩

/-- C2 (amended): if no record exists for the key, or the existing record's
`windowEnd < now` (strictly — `windowEnd = now` still counts as in-window),
the call starts a fresh window: afterwards the record is
`⟨1, now + windowSeconds·1000⟩` and the call reports `remaining = limit - 1`
and is admitted. -/
theorem C2_fresh_window (config : RateLimitConfig) (s : RateLimitStore)
    (k : String) (now : Int) (hW : 0 ≤ config.windowSec) (hL : 0 < config.limit)
    (hn : keysNodup s)
    (h : lookupKey s k = none ∨ ∃ d, lookupKey s k = some d ∧ d.resetTime < now) :
    lookupKey (check config s k now).2 k =
      some ⟨1, now + config.windowSec * 1000⟩ ∧
    (check config s k now).1.remaining = config.limit - 1 ∧
    (check config s k now).1.admitted = true := by
  have hclean : lookupKey (cleanupExpiredEntries now s) k = none := by
    rcases h with h | ⟨d, hd, hlt⟩
    · exact lookupKey_filter_none s _ k h
    · rw [cleanupExpiredEntries, lookupKey_filter_eq s _ k hn, hd]
      simp [hlt]
  rw [check_fresh config s k now hW (Or.inl hclean)]
  have h1 : ¬ (config.limit < 1) := by omega
  refine ⟨lookupKey_setKey_self _ _ _, ?_, ?_⟩
  · show max 0 (config.limit - 1) = config.limit - 1
    exact max_eq_right (by omega)
  · show (!(decide (config.limit < 1))) = true
    simp [h1]

/-- C2 witness. -/
theorem C2_fresh_window_witness :
    lookupKey (check ⟨5, 60⟩ [("k", ⟨3, 1000⟩)] "k" 2000).2 "k" =
      some ⟨1, 2000 + 60 * 1000⟩ ∧
    (check ⟨5, 60⟩ [("k", ⟨3, 1000⟩)] "k" 2000).1.remaining = 5 - 1 ∧
    (check ⟨5, 60⟩ [("k", ⟨3, 1000⟩)] "k" 2000).1.admitted = true :=
  C2_fresh_window ⟨5, 60⟩ [("k", ⟨3, 1000⟩)] "k" 2000 (by decide) (by decide)
    (by decide) (Or.inr ⟨⟨3, 1000⟩, rfl, by decide⟩)

/-- C6 counterexample: the cleanup sweep only drops entries with
`windowEnd < now` (strictly).  A foreign entry whose `windowEnd` equals `now`
(`1000`) survives a `check` call at `now = 1000`, although the claim says no
entry with `windowEnd <= now` remains. -/
theorem C6_cex :
    lookupKey (check ⟨5, 60⟩ [("a", ⟨1, 1000⟩)] "b" 1000).2 "a" =
      some ⟨1, 1000⟩ ∧ (1000 : Int) ≤ (1000 : Int) :=
  ⟨rfl, le_refl 1000⟩

/-- C6 (amended): every `check` call first sweeps the full store and drops
exactly the entries with `windowEnd < now` (strictly): immediately after any
`check (·, now)`, every entry still physically present — the checked key's
included — has `now ≤ windowEnd`. -/
theorem C6_no_expired_after_check (config : RateLimitConfig)
    (s : RateLimitStore) (k : String) (now : Int) (hW : 0 ≤ config.windowSec)
    (k' : String) (r : UserRateLimit)
    (h : lookupKey (check config s k now).2 k' = some r) :
    now ≤ r.resetTime := by
  obtain ⟨c, R, h2, hR⟩ := check_store config s k now
  rw [h2] at h
  by_cases hk : k' = k
  · subst hk
    rw [lookupKey_setKey_self] at h
    have hr : (⟨c, R⟩ : UserRateLimit) = r := by injection h
    subst hr
    rcases hR with rfl | hR
    · show now ≤ now + config.windowSec * 1000
      omega
    · exact hR
  · rw [lookupKey_setKey_ne _ _ _ _ hk] at h
    rw [cleanupExpiredEntries] at h
    have := lookupKey_filter_some s _ k' r h
    simp at this
    omega

/-- C6 witness. -/
theorem C6_no_expired_after_check_witness :
    (0 : Int) ≤ 60 ∧
    1000 ≤ (⟨1, 1000⟩ : UserRateLimit).resetTime :=
  ⟨by decide,
   C6_no_expired_after_check ⟨5, 60⟩ [("a", ⟨1, 1000⟩)] "b" 1000 (by decide)
     "a" ⟨1, 1000⟩ rfl⟩

/-- C5 counterexample: the store is a module-level singleton shared by every
middleware instance.  After one `check` of key `"u"` through an instance with
config `⟨1, 60⟩`, an observation of `"u"` through a second instance with
config `⟨2, 60⟩` reports `remaining = 0`, whereas with the disjoint store the
claim requires it would report `1`. -/
theorem C5_cex :
    ((check ⟨2, 60⟩ ((check ⟨1, 60⟩ [] "u" 0).2) "u" 0).1.remaining = 0) ∧
    ((check ⟨2, 60⟩ [] "u" 0).1.remaining = 1) :=
  ⟨rfl, rfl⟩

/-- C5 (amended): middleware instances returned by separate
`createRateLimiterMiddleware` calls share the single module-level store, so a
`check` through one instance changes the usage state observed through the
other: after instance 1 (config `cfg1`) checks a fresh key, a `check` of the
same key at the same time through instance 2 (config `cfg2`) continues the
very record instance 1 created — count `2`, window end inherited from
instance 1 — and reports `remaining = max 0 (cfg2.limit - 2)`. -/
theorem C5_shared_store (cfg1 cfg2 : RateLimitConfig) (k : String) (t : Int)
    (hW : 0 < cfg1.windowSec) :
    lookupKey (check cfg2 ((check cfg1 [] k t).2) k t).2 k =
      some ⟨2, t + cfg1.windowSec * 1000⟩ ∧
    (check cfg2 ((check cfg1 [] k t).2) k t).1.remaining =
      max 0 (cfg2.limit - 2) := by
  have h1 : lookupKey (cleanupExpiredEntries t ([] : RateLimitStore)) k = none := rfl
  rw [check_fresh cfg1 [] k t (le_of_lt hW) (Or.inl h1)]
  have hcond : ¬ ((t + cfg1.windowSec * 1000) < t) := by omega
  have h2 : lookupKey (cleanupExpiredEntries t
      (setKey (cleanupExpiredEntries t []) k ⟨1, t + cfg1.windowSec * 1000⟩)) k =
      some ⟨1, t + cfg1.windowSec * 1000⟩ := by
    show lookupKey (cleanupExpiredEntries t [(k, ⟨1, t + cfg1.windowSec * 1000⟩)]) k =
      some ⟨1, t + cfg1.windowSec * 1000⟩
    rw [cleanupExpiredEntries, List.filter_cons_of_pos (by simpa using hcond)]
    simp [lookupKey]
  rw [check_cont cfg2 _ k t ⟨1, t + cfg1.windowSec * 1000⟩ h2 (by simpa using hcond)]
  exact ⟨lookupKey_setKey_self _ _ _, rfl⟩

/-- C5 witness. -/
theorem C5_shared_store_witness :
    (0 : Int) < 60 ∧
    (lookupKey (check ⟨2, 60⟩ ((check ⟨1, 60⟩ [] "u" 0).2) "u" 0).2 "u" =
      some ⟨2, 0 + 60 * 1000⟩ ∧
    (check ⟨2, 60⟩ ((check ⟨1, 60⟩ [] "u" 0).2) "u" 0).1.remaining =
      max 0 (2 - 2)) :=
  ⟨by decide, C5_shared_store ⟨1, 60⟩ ⟨2, 60⟩ "u" 0 (by decide)⟩

/-- C3: every `check` call reports, for the checked key's current (post-call)
record, `remaining = max 0 (limit - count)` and
`resetIn = ceil((windowEnd - now) / 1000 ms)`; the decision carries these two
values computed independently of the verdict `admitted = (count ≤ limit)`, so
they are reported identically whether the call is admitted or rejected. -/
theorem C3_reported_quota (config : RateLimitConfig) (s : RateLimitStore)
    (k : String) (now : Int) (hW : 0 ≤ config.windowSec) :
    ∃ r, lookupKey (check config s k now).2 k = some r ∧
      (check config s k now).1.remaining = max 0 (config.limit - r.count) ∧
      (check config s k now).1.resetIn =
        ⌈((r.resetTime - now : Int) : ℚ) / 1000⌉ ∧
      (check config s k now).1.admitted = !(decide (config.limit < r.count)) := by
  cases hl : lookupKey (cleanupExpiredEntries now s) k with
  | none =>
    rw [check_fresh config s k now hW (Or.inl hl)]
    refine ⟨⟨1, now + config.windowSec * 1000⟩, lookupKey_setKey_self _ _ _,
      rfl, ?_, rfl⟩
    show ceilDiv1000 (config.windowSec * 1000) = _
    rw [show (now + config.windowSec * 1000 - now : Int) =
      config.windowSec * 1000 by ring]
    exact ceilDiv1000_eq _
  | some d =>
    by_cases hd : d.resetTime < now
    · rw [check_fresh config s k now hW (Or.inr ⟨d, hl, hd⟩)]
      refine ⟨⟨1, now + config.windowSec * 1000⟩, lookupKey_setKey_self _ _ _,
        rfl, ?_, rfl⟩
      show ceilDiv1000 (config.windowSec * 1000) = _
      rw [show (now + config.windowSec * 1000 - now : Int) =
        config.windowSec * 1000 by ring]
      exact ceilDiv1000_eq _
    · rw [check_cont config s k now d hl hd]
      exact ⟨⟨d.count + 1, d.resetTime⟩, lookupKey_setKey_self _ _ _,
        rfl, ceilDiv1000_eq _, rfl⟩

/-- C3 witness. -/
theorem C3_reported_quota_witness :
    (0 : Int) ≤ 60 ∧
    (∃ r, lookupKey (check ⟨5, 60⟩ [] "u" 0).2 "u" = some r ∧
      (check ⟨5, 60⟩ [] "u" 0).1.remaining = max 0 (5 - r.count) ∧
      (check ⟨5, 60⟩ [] "u" 0).1.resetIn =
        ⌈((r.resetTime - 0 : Int) : ℚ) / 1000⌉ ∧
      (check ⟨5, 60⟩ [] "u" 0).1.admitted = !(decide ((5 : Int) < r.count))) :=
  ⟨by decide, C3_reported_quota ⟨5, 60⟩ [] "u" 0 (by decide)⟩

/-- C9: `resetKey` (`resetUserRateLimit`) unconditionally removes the key's
record, is idempotent, is a no-op on an absent key (and raises nothing: it is
a total function), and after it the very next `check` for that key is
admitted as if the key were new, reporting `remaining = limit - 1`. -/
theorem C9_resetKey (s : RateLimitStore) (k : String) :
    lookupKey (resetUserRateLimit s k) k = none ∧
    resetUserRateLimit (resetUserRateLimit s k) k = resetUserRateLimit s k ∧
    (lookupKey s k = none → resetUserRateLimit s k = s) ∧
    (∀ config : RateLimitConfig, ∀ now : Int, 0 < config.limit →
      0 ≤ config.windowSec →
      (check config (resetUserRateLimit s k) k now).1.admitted = true ∧
      (check config (resetUserRateLimit s k) k now).1.remaining =
        config.limit - 1) := by
  refine ⟨lookupKey_eraseKey_self s k, eraseKey_idem s k,
    eraseKey_of_lookupKey_none s k, ?_⟩
  intro config now hL hW
  have hclean :
      lookupKey (cleanupExpiredEntries now (resetUserRateLimit s k)) k = none := by
    rw [cleanupExpiredEntries]
    exact lookupKey_filter_none _ _ k (lookupKey_eraseKey_self s k)
  rw [check_fresh config (resetUserRateLimit s k) k now hW (Or.inl hclean)]
  constructor
  · show (!(decide (config.limit < 1))) = true
    have h1 : ¬ (config.limit < 1) := by omega
    simp [h1]
  · show max 0 (config.limit - 1) = config.limit - 1
    exact max_eq_right (by omega)

/-- C9 witness. -/
theorem C9_resetKey_witness :
    lookupKey (resetUserRateLimit [("u", ⟨9, 99999⟩)] "u") "u" = none ∧
    (check ⟨5, 60⟩ (resetUserRateLimit [("u", ⟨9, 99999⟩)] "u") "u" 0).1.admitted
      = true ∧
    (check ⟨5, 60⟩ (resetUserRateLimit [("u", ⟨9, 99999⟩)] "u") "u" 0).1.remaining
      = 5 - 1 :=
  ⟨(C9_resetKey [("u", ⟨9, 99999⟩)] "u").1,
   ((C9_resetKey [("u", ⟨9, 99999⟩)] "u").2.2.2 ⟨5, 60⟩ 0 (by decide)
     (by decide)).1,
   ((C9_resetKey [("u", ⟨9, 99999⟩)] "u").2.2.2 ⟨5, 60⟩ 0 (by decide)
     (by decide)).2⟩

theorem bnot_decide_lt (L x : Int) : (!(decide (L < x))) = decide (x ≤ L) := by
  by_cases h : L < x
  · have h2 : ¬ x ≤ L := by omega
    simp [h, h2]
  · have h2 : x ≤ L := by omega
    simp [h, h2]

theorem checkSeq_length (config : RateLimitConfig) (k : String)
    (s : RateLimitStore) (ts : List Int) :
    (checkSeq config k s ts).1.length = ts.length := by
  induction ts generalizing s with
  | nil => rfl
  | cons t ts ih => simp [checkSeq, ih]

theorem checkSeq_inv (config : RateLimitConfig) (k : String) (R : Int)
    (ts : List Int) :
    ∀ (s : RateLimitStore) (c : Int),
      lookupKey s k = some ⟨c, R⟩ → (∀ t' ∈ ts, t' ≤ R) →
      ∀ i (hi : i < (checkSeq config k s ts).1.length),
        (((checkSeq config k s ts).1.get ⟨i, hi⟩).admitted = true ↔
          c + (i : Int) + 1 ≤ config.limit) ∧
        ((checkSeq config k s ts).1.get ⟨i, hi⟩).remaining =
          max 0 (config.limit - (c + (i : Int) + 1)) := by
  induction ts with
  | nil =>
    intro s c h hts i hi
    simp [checkSeq] at hi
  | cons t ts ih =>
    intro s c h hts i hi
    have ht : t ≤ R := hts t (by simp)
    have hcl : lookupKey (cleanupExpiredEntries t s) k = some ⟨c, R⟩ := by
      rw [cleanupExpiredEntries]
      refine lookupKey_filter_pass s _ k ⟨c, R⟩ h ?_
      simp only [Bool.not_eq_true', decide_eq_false_iff_not]
      show ¬ R < t
      omega
    have hcont := check_cont config s k t ⟨c, R⟩ hcl (by show ¬ R < t; omega)
    cases i with
    | zero =>
      have hhead : (checkSeq config k s (t :: ts)).1.get ⟨0, hi⟩ =
          (check config s k t).1 := rfl
      constructor
      · rw [hhead, hcont]
        show (!(decide (config.limit < c + 1))) = true ↔ _
        simp only [Bool.not_eq_true', decide_eq_false_iff_not]
        push_cast
        omega
      · rw [hhead, hcont]
        show max 0 (config.limit - (c + 1)) = _
        norm_num
    | succ j =>
      have hlen : j < (checkSeq config k (check config s k t).2 ts).1.length := by
        rw [checkSeq_length] at hi ⊢
        simpa using Nat.lt_of_succ_lt_succ (by simpa using hi)
      have hlk : lookupKey (check config s k t).2 k = some ⟨c + 1, R⟩ := by
        rw [hcont]
        exact lookupKey_setKey_self _ _ _
      have htail : ∀ t' ∈ ts, t' ≤ R := fun t' ht' =>
        hts t' (List.mem_cons_of_mem t ht')
      have hrec := ih (check config s k t).2 (c + 1) hlk htail j hlen
      have hget : (checkSeq config k s (t :: ts)).1.get ⟨j + 1, hi⟩ =
          (checkSeq config k (check config s k t).2 ts).1.get ⟨j, hlen⟩ := by
        simp [checkSeq]
      rw [hget]
      constructor
      · rw [hrec.1]
        push_cast
        omega
      · rw [hrec.2]
        congr 1
        push_cast
        ring

/-- C1: from a fresh store, with a positive window, a single key checked
sequentially at times all within the first call's window is admitted on
exactly the first `limit` calls — the (i+1)-th call is admitted iff
`i + 1 ≤ limit` — and every call reports `remaining = max 0 (limit - (i+1))`:
`limit - (i+1)` on the admitted calls, and `0` (never negative) on every
further, rejected call in the window. -/
theorem C1_sequential_window (config : RateLimitConfig) (k : String)
    (t : Int) (ts : List Int) (hW : 0 < config.windowSec)
    (hts : ∀ t' ∈ ts, t' ≤ t + config.windowSec * 1000) :
    ∀ i (hi : i < (checkSeq config k [] (t :: ts)).1.length),
      (((checkSeq config k [] (t :: ts)).1.get ⟨i, hi⟩).admitted = true ↔
        (i : Int) + 1 ≤ config.limit) ∧
      ((checkSeq config k [] (t :: ts)).1.get ⟨i, hi⟩).remaining =
        max 0 (config.limit - ((i : Int) + 1)) := by
  have h0 : lookupKey (cleanupExpiredEntries t ([] : RateLimitStore)) k = none := rfl
  have hfresh := check_fresh config [] k t (le_of_lt hW) (Or.inl h0)
  intro i hi
  cases i with
  | zero =>
    have hhead : (checkSeq config k [] (t :: ts)).1.get ⟨0, hi⟩ =
        (check config [] k t).1 := rfl
    constructor
    · rw [hhead, hfresh]
      show (!(decide (config.limit < 1))) = true ↔ _
      simp only [Bool.not_eq_true', decide_eq_false_iff_not]
      push_cast
      omega
    · rw [hhead, hfresh]
      show max 0 (config.limit - 1) = _
      norm_num
  | succ j =>
    have hlen : j < (checkSeq config k (check config [] k t).2 ts).1.length := by
      rw [checkSeq_length] at hi ⊢
      simpa using Nat.lt_of_succ_lt_succ (by simpa using hi)
    have hlk : lookupKey (check config [] k t).2 k =
        some ⟨1, t + config.windowSec * 1000⟩ := by
      rw [hfresh]
      exact lookupKey_setKey_self _ _ _
    have hrec := checkSeq_inv config k (t + config.windowSec * 1000) ts
      (check config [] k t).2 1 hlk hts j hlen
    have hget : (checkSeq config k [] (t :: ts)).1.get ⟨j + 1, hi⟩ =
        (checkSeq config k (check config [] k t).2 ts).1.get ⟨j, hlen⟩ := by
      simp [checkSeq]
    rw [hget]
    constructor
    · rw [hrec.1]
      push_cast
      omega
    · rw [hrec.2]
      congr 1
      push_cast
      ring

/-- C1 witness: limit 2, window 60 s, three calls at time 0 — the third call
(index 2) is rejected with remaining 0. -/
theorem C1_sequential_window_witness :
    (0 : Int) < 60 ∧
    ((((checkSeq ⟨2, 60⟩ "u" [] (0 :: [0, 0])).1.get ⟨2, by decide⟩).admitted
        = true ↔ ((2 : Nat) : Int) + 1 ≤ 2) ∧
      ((checkSeq ⟨2, 60⟩ "u" [] (0 :: [0, 0])).1.get ⟨2, by decide⟩).remaining
        = max 0 (2 - (((2 : Nat) : Int) + 1))) :=
  ⟨by decide,
   C1_sequential_window ⟨2, 60⟩ "u" 0 [0, 0] (by decide) (by decide) 2
     (by decide)⟩

theorem lookupKey_cleanup_eq (s : RateLimitStore) (now : Int) (k : String)
    (hn : keysNodup s) :
    lookupKey (cleanupExpiredEntries now s) k =
      match lookupKey s k with
      | none => none
      | some r => if now ≤ r.resetTime then some r else none := by
  rw [cleanupExpiredEntries, lookupKey_filter_eq s _ k hn]
  cases lookupKey s k with
  | none => rfl
  | some d =>
    dsimp only
    by_cases hd : d.resetTime < now
    · rw [if_neg (by simpa using hd), if_neg (by omega)]
    · rw [if_pos (by simpa using hd), if_pos (by omega)]

/-- C7: distinct keys are fully independent: a `check` for key A leaves the
non-expired record of any other key B unchanged, and consequently any later
`check` of B (under any config and time) returns exactly the decision it
would have returned on the store as it was before A's call. -/
theorem C7_key_independence (config : RateLimitConfig) (s : RateLimitStore)
    (A : String) (now : Int) (B : String) (r : UserRateLimit)
    (hne : B ≠ A) (hn : keysNodup s) (hr : lookupKey s B = some r)
    (hlive : now ≤ r.resetTime) :
    lookupKey (check config s A now).2 B = some r ∧
    ∀ (config' : RateLimitConfig) (t : Int),
      (check config' (check config s A now).2 B t).1 =
        (check config' s B t).1 := by
  obtain ⟨c, R, h2, hR⟩ := check_store config s A now
  have hcleanB : lookupKey (cleanupExpiredEntries now s) B = some r := by
    rw [lookupKey_cleanup_eq s now B hn, hr]
    dsimp only
    rw [if_pos hlive]
  have hB : lookupKey (check config s A now).2 B = some r := by
    rw [h2, lookupKey_setKey_ne _ _ _ _ hne]
    exact hcleanB
  refine ⟨hB, ?_⟩
  intro config' t
  have hn' : keysNodup (check config s A now).2 := check_keysNodup config s A now hn
  rw [check_decision_eq config' (check config s A now).2 B t,
      check_decision_eq config' s B t]
  congr 1
  rw [lookupKey_cleanup_eq _ t B hn', hB, lookupKey_cleanup_eq s t B hn, hr]

/-- C7 witness. -/
theorem C7_key_independence_witness :
    ("b" : String) ≠ "a" ∧
    (lookupKey (check ⟨5, 60⟩ [("b", ⟨1, 5000⟩)] "a" 0).2 "b" =
      some ⟨1, 5000⟩ ∧
    (check ⟨3, 10⟩ (check ⟨5, 60⟩ [("b", ⟨1, 5000⟩)] "a" 0).2 "b" 4000).1 =
      (check ⟨3, 10⟩ [("b", ⟨1, 5000⟩)] "b" 4000).1) :=
  ⟨by decide,
   (C7_key_independence ⟨5, 60⟩ [("b", ⟨1, 5000⟩)] "a" 0 "b" ⟨1, 5000⟩
      (by decide) (by decide) rfl (by decide)).1,
   (C7_key_independence ⟨5, 60⟩ [("b", ⟨1, 5000⟩)] "a" 0 "b" ⟨1, 5000⟩
      (by decide) (by decide) rfl (by decide)).2 ⟨3, 10⟩ 4000⟩

/-- C8: `stats` (`getRateLimitStats`) purges exactly the expired entries
(strictly `windowEnd < now`) and reports the number of keys then present in
the store (as both its fields); it never increments any count — an entry
survives iff it was present and non-expired, unchanged — and a subsequent
`check` of any key non-expired at stats time returns the same decision as it
would have without the stats call. -/
theorem C8_stats (s : RateLimitStore) (now : Int) (hn : keysNodup s) :
    (getRateLimitStats s now).1.1 = (getRateLimitStats s now).2.length ∧
    (getRateLimitStats s now).1.2 = (getRateLimitStats s now).2.length ∧
    (∀ k r, lookupKey (getRateLimitStats s now).2 k = some r ↔
      (lookupKey s k = some r ∧ now ≤ r.resetTime)) ∧
    (∀ (config : RateLimitConfig) (k : String) (r : UserRateLimit) (t : Int),
      lookupKey s k = some r → now ≤ r.resetTime →
      (check config (getRateLimitStats s now).2 k t).1 =
        (check config s k t).1) := by
  refine ⟨rfl, rfl, ?_, ?_⟩
  · intro k r
    show lookupKey (cleanupExpiredEntries now s) k = some r ↔ _
    rw [lookupKey_cleanup_eq s now k hn]
    cases hl : lookupKey s k with
    | none => simp
    | some d =>
      dsimp only
      by_cases hd : now ≤ d.resetTime
      · rw [if_pos hd]
        constructor
        · intro h
          injection h with h'
          subst h'
          exact ⟨rfl, hd⟩
        · rintro ⟨h1, -⟩
          exact h1
      · rw [if_neg hd]
        constructor
        · intro h
          exact Option.noConfusion h
        · rintro ⟨h1, h2⟩
          injection h1 with h'
          subst h'
          exact absurd h2 hd
  · intro config k r t hkr hlive
    have hinner : lookupKey (cleanupExpiredEntries now s) k = some r := by
      rw [lookupKey_cleanup_eq s now k hn, hkr]
      dsimp only
      rw [if_pos hlive]
    show (check config (cleanupExpiredEntries now s) k t).1 = _
    rw [check_decision_eq config (cleanupExpiredEntries now s) k t,
        check_decision_eq config s k t]
    congr 1
    rw [lookupKey_cleanup_eq _ t k (keysNodup_cleanup s now hn), hinner,
        lookupKey_cleanup_eq s t k hn, hkr]

/-- C8 witness. -/
theorem C8_stats_witness :
    ((getRateLimitStats [("a", ⟨1, 1000⟩), ("b", ⟨2, 5000⟩)] 2000).1.1 =
      (getRateLimitStats [("a", ⟨1, 1000⟩), ("b", ⟨2, 5000⟩)] 2000).2.length) ∧
    (lookupKey (getRateLimitStats [("a", ⟨1, 1000⟩), ("b", ⟨2, 5000⟩)] 2000).2
        "b" = some ⟨2, 5000⟩ ↔
      (lookupKey [("a", ⟨1, 1000⟩), ("b", ⟨2, 5000⟩)] "b" = some ⟨2, 5000⟩ ∧
        (2000 : Int) ≤ (⟨2, 5000⟩ : UserRateLimit).resetTime)) ∧
    ((check ⟨5, 60⟩
        (getRateLimitStats [("a", ⟨1, 1000⟩), ("b", ⟨2, 5000⟩)] 2000).2
        "b" 3000).1 =
      (check ⟨5, 60⟩ [("a", ⟨1, 1000⟩), ("b", ⟨2, 5000⟩)] "b" 3000).1) :=
  ⟨(C8_stats [("a", ⟨1, 1000⟩), ("b", ⟨2, 5000⟩)] 2000 (by decide)).1,
   (C8_stats [("a", ⟨1, 1000⟩), ("b", ⟨2, 5000⟩)] 2000 (by decide)).2.2.1
     "b" ⟨2, 5000⟩,
   (C8_stats [("a", ⟨1, 1000⟩), ("b", ⟨2, 5000⟩)] 2000 (by decide)).2.2.2
     ⟨5, 60⟩ "b" ⟨2, 5000⟩ 3000 rfl (by decide)⟩
